import Mathlib

/-!
Shallow embedding of the swing-trader paper bot (src/PaperTrader.py).

Modelling conventions:
* Python floats (prices, indicator values) are modelled as rationals.
* Calendar timestamps are modelled as rationals counting days, so that
  datetime.now() - strptime(entry) > timedelta(days = N) becomes
  now - entry > N.
* A pandas dataframe is modelled by the columns the program reads from it:
  for the entry scan, the list of rows that survive the final dropna, each
  row holding Close and the indicator columns; for the exit scan, the Close
  column plus the list of column names (used by the "macd" in df.columns
  guard).
* The fallible environment (yf.download plus the ta indicator calls inside
  the try block) is passed in as an explicit value: Except.error models a
  raised exception, Except.ok none models a None dataframe, and
  Except.ok (some rows) a successful computation.
* The bot is single threaded, so each scan pass is a List.foldl over a
  state record; the clock of run_bot is modelled by one timestamp per pass.
-/

namespace PaperTrader

/-- One row of the dataframe produced inside scan_indicators after the
indicator columns have been added and the second dropna has run
(src/PaperTrader.py lines 55 to 66): the Close column together with the
indicator columns rsi, macd, macd_signal, bb_lower, bb_upper, adx, sma_200. -/
structure IndicatorRow where
  close : ℚ
  rsi : ℚ
  macd : ℚ
  macd_signal : ℚ
  bb_lower : ℚ
  bb_upper : ℚ
  adx : ℚ
  sma_200 : ℚ
deriving DecidableEq, Inhabited

/-- Lines 67 to 78 of scan_indicators: the five entry conditions are checked
on the latest row and each one that holds appends its label to the reasons
list, in this fixed program order. -/
def entryReasons (latest : IndicatorRow) : List String :=
  (if latest.rsi < 50 then ["RSI<50"] else []) ++
  (if latest.macd > latest.macd_signal then ["MACD>Signal"] else []) ++
  (if latest.close ≤ latest.bb_upper then ["Close<=BB_Upper"] else []) ++
  (if latest.adx > 15 then ["ADX>15"] else []) ++
  (if latest.close > latest.sma_200 then ["Close>SMA200"] else [])

/-- scan_indicators (lines 47 to 84).  The whole body sits in a try block:
Except.error models any exception raised by the download or the indicator
math (caught at line 82, returning (None, None)); Except.ok none models
yf.download returning None (line 50); Except.ok (some rows) gives the rows
left after the indicator computation and the final dropna.  An empty raw
download returns (None, None) at line 51, and a dataframe that becomes
empty after dropna makes df.iloc[-1] raise, which the except catches, so
both cases are the rows = [] branch here.  On success the function returns
the dataframe together with the reasons list when all five conditions hold
(len == 5 at line 80) and None otherwise. -/
def scan_indicators (fetched : Except Unit (Option (List IndicatorRow))) :
    Option (List IndicatorRow) × Option (List String) :=
  match fetched with
  | .error _ => (none, none)
  | .ok none => (none, none)
  | .ok (some rows) =>
      match rows.getLast? with
      | none => (none, none)
      | some latest =>
          (some rows,
           if (entryReasons latest).length = 5 then some (entryReasons latest) else none)

/-- A row of buys.csv (columns ticker, price, entry, reason, shares), the
persisted form of an open position (load_portfolio, line 90). -/
structure Position where
  ticker : String
  price : ℚ
  entry : ℚ
  reason : String
  shares : ℤ
deriving DecidableEq, Inhabited

/-- A row of exits.csv (columns ticker, price, exit, reason), produced by
log_exit (lines 102 to 108). -/
structure ExitRecord where
  ticker : String
  price : ℚ
  exitDate : ℚ
  reason : String
deriving DecidableEq, Inhabited

/-- log_buy (lines 93 to 99): unconditionally appends one row to buys.csv;
it performs no check of any kind on the existing rows. -/
def log_buy (log : List Position) (ticker : String) (price : ℚ) (now : ℚ)
    (reason : String) (shares : ℤ) : List Position :=
  log ++ [⟨ticker, price, now, reason, shares⟩]

/-- log_exit (lines 102 to 108): unconditionally appends one row to
exits.csv; it performs no check of any kind on the existing rows. -/
def log_exit (log : List ExitRecord) (ticker : String) (price : ℚ) (now : ℚ)
    (reason : String) : List ExitRecord :=
  log ++ [⟨ticker, price, now, reason⟩]

/-- The configuration read from the environment at lines 15 and 21:
STARTING_CASH and MAX_POSITION_SIZE. -/
structure Config where
  startingCash : ℚ
  maxPositionSize : ℚ
deriving DecidableEq, Inhabited

/-- Line 143: allocation = STARTING_CASH * MAX_POSITION_SIZE. -/
def allocation (cfg : Config) : ℚ := cfg.startingCash * cfg.maxPositionSize

/-- Line 144: shares = int(allocation // price).  Float floor division
followed by int() is the floor for a positive price (the only case the
program reaches, since price is a traded close). -/
def sizedShares (cfg : Config) (price : ℚ) : ℤ := ⌊allocation cfg / price⌋

/-- Line 131: the in-memory balance at the start of the scan pass,
STARTING_CASH minus the sum of price * shares over the loaded portfolio. -/
def portfolioCost (portfolio : List Position) : ℚ :=
  (portfolio.map fun p => p.price * (p.shares : ℚ)).sum

/-- The ticker column of the loaded portfolio (portfolio["ticker"].values,
line 137). -/
def openTickers (portfolio : List Position) : List String :=
  portfolio.map Position.ticker

/-- Line 142: price = df["Close"].iloc[-1].  The default is never read on
the paths run_bot takes, because scan_indicators returns a reasons list
only together with a nonempty dataframe. -/
def latestClose (df : Option (List IndicatorRow)) : ℚ :=
  ((df.getD []).getLast?.getD default).close

/-- The mutable state of the entry scan loop (lines 136 to 150): the
running balance, the rows appended to buys.csv so far, and the tickers
that have been handed to scan_indicators (those not skipped at line 137). -/
structure EntryState where
  balance : ℚ
  buys : List Position
  evaluated : List String
deriving DecidableEq, Inhabited

/-- One iteration of the entry loop (lines 136 to 150) for one ticker:
skip it when it already has an open position (line 137); otherwise run
scan_indicators, and when the reasons list is truthy (a nonempty list)
size the trade and, if shares > 0 and price * shares <= balance, append
the buy via log_buy and debit the balance. -/
def entryStep (cfg : Config) (portfolio : List Position) (now : ℚ)
    (fetchEnv : String → Except Unit (Option (List IndicatorRow)))
    (st : EntryState) (ticker : String) : EntryState :=
  if ticker ∈ openTickers portfolio then st
  else
    let res := scan_indicators (fetchEnv ticker)
    let st1 : EntryState := ⟨st.balance, st.buys, st.evaluated ++ [ticker]⟩
    match res.2 with
    | none => st1
    | some reasons =>
        if reasons.length = 0 then st1
        else
          let price := latestClose res.1
          let shares := sizedShares cfg price
          if 0 < shares ∧ price * (shares : ℚ) ≤ st1.balance then
            ⟨st1.balance - price * (shares : ℚ),
             log_buy st1.buys ticker price now (String.intercalate ", " reasons) shares,
             st1.evaluated⟩
          else st1

/-- The whole entry scan pass: fold the loop body over the ticker universe,
starting from the balance computed at line 131 and empty logs. -/
def entryPhase (cfg : Config) (portfolio : List Position) (now : ℚ)
    (fetchEnv : String → Except Unit (Option (List IndicatorRow)))
    (tickers : List String) : EntryState :=
  tickers.foldl (entryStep cfg portfolio now fetchEnv)
    ⟨cfg.startingCash - portfolioCost portfolio, [], []⟩

/-- The dataframe fetched in the exit loop (line 158), as the program reads
it: the Close column, the column names (for the "macd" in df.columns guard
at line 171), and the latest macd and macd_signal values that guard would
read when the columns are present. -/
structure ExitDf where
  closes : List ℚ
  cols : List String
  macdLatest : ℚ
  macdSignalLatest : ℚ
deriving DecidableEq, Inhabited

/-- Line 170: the formatted reason string for the max-hold rule. -/
def maxHoldMsg (maxHoldDays : ℕ) : String :=
  "Max Hold " ++ toString maxHoldDays ++ " days"

/-- Lines 162 to 172: the exit decision for one open position, an if/elif
chain evaluated top to bottom, first match wins. -/
def exitReason (maxHoldDays : ℕ) (now : ℚ) (buyPrice entryDate : ℚ)
    (latestClose : ℚ) (df : ExitDf) : Option String :=
  if latestClose ≥ buyPrice * (11/10) then some "Take Profit 10%"
  else if latestClose ≤ buyPrice * (93/100) then some "Stop Loss 7%"
  else if now - entryDate > (maxHoldDays : ℚ) then some (maxHoldMsg maxHoldDays)
  else if "macd" ∈ df.cols ∧ df.macdLatest < df.macdSignalLatest then
    some "MACD cross down"
  else none

/-- The state accumulated by the exit loop (lines 154 to 178): the rows
kept for the rewritten buys.csv and the rows appended to exits.csv. -/
structure ExitOutcome where
  to_keep : List Position
  exits : List ExitRecord
deriving DecidableEq, Inhabited

/-- One iteration of the exit loop (lines 155 to 178) for one portfolio
row: when the fresh download is None or empty the row is skipped by
continue (appended to neither list); otherwise the decision of the if/elif
chain either appends an ExitRecord via log_exit or keeps the row. -/
def exitStep (maxHoldDays : ℕ) (now : ℚ) (fetch : String → Option ExitDf)
    (acc : ExitOutcome) (row : Position) : ExitOutcome :=
  match fetch row.ticker with
  | none => acc
  | some df =>
      match df.closes.getLast? with
      | none => acc
      | some latest =>
          match exitReason maxHoldDays now row.price row.entry latest df with
          | some r => ⟨acc.to_keep, log_exit acc.exits row.ticker latest now r⟩
          | none => ⟨acc.to_keep ++ [row], acc.exits⟩

/-- The whole exit pass (lines 153 to 180): fold the loop body over the
reloaded portfolio; buys.csv is then rewritten from to_keep alone. -/
def exitPhase (maxHoldDays : ℕ) (now : ℚ) (fetch : String → Option ExitDf)
    (portfolio : List Position) : ExitOutcome :=
  portfolio.foldl (exitStep maxHoldDays now fetch) ⟨[], []⟩

/-- The columns of the dataframe returned by yf.download with
auto_adjust=True (line 158): Open, High, Low, Close, Volume, and nothing
else; in particular no indicator column is ever present. -/
def ohlcvCols : List String := ["Open", "High", "Low", "Close", "Volume"]

/-- The exit-phase data source: yf.download per ticker returns either no
dataframe or a raw OHLCV dataframe.  The two macd fields are placeholders
that the column guard in exitReason prevents from ever being read, since
"macd" is not among the OHLCV column names. -/
def downloadFresh (quotes : String → Option (List ℚ)) (ticker : String) :
    Option ExitDf :=
  (quotes ticker).map fun closes => ⟨closes, ohlcvCols, 0, 0⟩

/-- The five entry conditions of lines 69 to 78, stated as one proposition
on the latest row. -/
def allFiveConditions (latest : IndicatorRow) : Prop :=
  latest.rsi < 50 ∧ latest.macd > latest.macd_signal ∧
    latest.close ≤ latest.bb_upper ∧ latest.adx > 15 ∧
    latest.close > latest.sma_200

/-- The reasons list produced when every condition holds, in program order. -/
def canonicalReasons : List String :=
  ["RSI<50", "MACD>Signal", "Close<=BB_Upper", "ADX>15", "Close>SMA200"]

/-- A concrete latest row on which all five entry conditions hold. -/
def rowGood : IndicatorRow := ⟨100, 40, 2, 1, 80, 120, 20, 90⟩

/-- A data source whose every ticker yields the one-row dataframe rowGood. -/
def envGood : String → Except Unit (Option (List IndicatorRow)) :=
  fun _ => .ok (some [rowGood])

theorem entryReasons_length_five_iff (latest : IndicatorRow) :
    (entryReasons latest).length = 5 ↔ allFiveConditions latest := by
  unfold entryReasons allFiveConditions
  split_ifs <;> simp_all

theorem entryReasons_eq_of_allFive (latest : IndicatorRow)
    (h : allFiveConditions latest) : entryReasons latest = canonicalReasons := by
  obtain ⟨h1, h2, h3, h4, h5⟩ := h
  unfold entryReasons canonicalReasons
  rw [if_pos h1, if_pos h2, if_pos h3, if_pos h4, if_pos h5]
  rfl

/-- C4: scan_indicators returns an actionable reasons list if and only if
all five entry conditions hold on the latest bar; when a list is returned
it is exactly the canonical five-element list in the fixed program order,
and when even one condition fails no reasons list is returned. -/
theorem scan_signal_iff_confluence (rows : List IndicatorRow)
    (latest : IndicatorRow) (hl : rows.getLast? = some latest) :
    ((scan_indicators (.ok (some rows))).2 ≠ none ↔ allFiveConditions latest) ∧
    ∀ l, (scan_indicators (.ok (some rows))).2 = some l →
      l = canonicalReasons ∧ l.length = 5 := by
  have hred : scan_indicators (.ok (some rows)) =
      (some rows,
        if (entryReasons latest).length = 5 then some (entryReasons latest)
        else none) := by
    simp only [scan_indicators, hl]
  rw [hred]
  by_cases h : (entryReasons latest).length = 5
  · rw [if_pos h]
    refine ⟨⟨fun _ => (entryReasons_length_five_iff latest).mp h,
      fun _ => by simp⟩, ?_⟩
    intro l hlk
    have hle : entryReasons latest = l := by
      simpa using hlk
    have hall : allFiveConditions latest :=
      (entryReasons_length_five_iff latest).mp h
    rw [← hle, entryReasons_eq_of_allFive latest hall]
    exact ⟨rfl, by rw [← entryReasons_eq_of_allFive latest hall]; exact h⟩
  · rw [if_neg h]
    refine ⟨⟨fun hc => absurd rfl hc,
      fun ha => absurd ((entryReasons_length_five_iff latest).mpr ha) h⟩, ?_⟩
    intro l hlk
    exact absurd hlk (by simp)

/-- C4 witness: on the one-row dataframe rowGood, where every condition
holds, an actionable reasons list is returned. -/
theorem scan_signal_iff_confluence_witness :
    (scan_indicators (.ok (some [rowGood]))).2 ≠ none :=
  ((scan_signal_iff_confluence [rowGood] rowGood (by decide)).1).mpr
    (by unfold allFiveConditions rowGood; norm_num)

/-- C8: when the download raises an exception, returns no dataframe, or
the dataframe is empty after the computation, scan_indicators returns
(none, none): no signal is produced and nothing escapes to the caller,
every faulty branch landing on this value of the total function. -/
theorem scan_skip_on_data_failure :
    (∀ e, scan_indicators (.error e) = (none, none)) ∧
    scan_indicators (.ok none) = (none, none) ∧
    scan_indicators (.ok (some [])) = (none, none) :=
  ⟨fun _ => rfl, rfl, rfl⟩

/-- C2 counterexample: opening AAPL while AAPL already has an open row
does not fail; log_buy appends a second AAPL row; and closing MSFT with no
open MSFT row does not fail either; log_exit appends the record anyway. -/
theorem ledger_ops_never_reject :
    (log_buy [⟨"AAPL", 100, 0, "r", 5⟩] "AAPL" 110 1 "r2" 3).map Position.ticker
        = ["AAPL", "AAPL"] ∧
    log_exit [] "MSFT" 50 1 "Stop Loss 7%" = [⟨"MSFT", 50, 1, "Stop Loss 7%"⟩] :=
  ⟨rfl, rfl⟩

/-- C2 amended: log_buy and log_exit append unconditionally and never
reject, whatever the existing rows contain; the ticker uniqueness check
lives in the entry loop instead, which skips an already open ticker before
scan_indicators runs. -/
theorem ledger_append_and_caller_skip
    (blog : List Position) (elog : List ExitRecord) (t : String)
    (p now : ℚ) (r : String) (s : ℤ)
    (cfg : Config) (portfolio : List Position)
    (fetchEnv : String → Except Unit (Option (List IndicatorRow)))
    (st : EntryState) (hmem : t ∈ openTickers portfolio) :
    log_buy blog t p now r s = blog ++ [⟨t, p, now, r, s⟩] ∧
    log_exit elog t p now r = elog ++ [⟨t, p, now, r⟩] ∧
    entryStep cfg portfolio now fetchEnv st t = st := by
  refine ⟨rfl, rfl, ?_⟩
  unfold entryStep
  rw [if_pos hmem]

/-- C2 amended witness: an already open ticker is skipped untouched by the
entry loop, while the append equations hold at the same concrete input. -/
theorem ledger_append_and_caller_skip_witness :
    entryStep ⟨10000, 5/100⟩ [⟨"AAPL", 100, 0, "r", 5⟩] 0 envGood
        ⟨400, [], []⟩ "AAPL" = ⟨400, [], []⟩ :=
  (ledger_append_and_caller_skip [] [] "AAPL" 100 0 "r" 5 ⟨10000, 5/100⟩
    [⟨"AAPL", 100, 0, "r", 5⟩] envGood ⟨400, [], []⟩ (by decide)).2.2

/-- C5: the sizer computes allocation = startingCash * maxPositionSize and
shares = floor(allocation / price); given an actionable signal for a ticker
that is not already open, a buy happens exactly when shares > 0 and
price * shares is at most the balance; every appended buy has positive
shares, sized shares, and cost at most the balance it was checked against;
and scenario D: startingCash 10000, fraction 5/100, price 25 gives
allocation 500 and shares 20, and is rejected at balance 400. -/
theorem position_sizing (cfg : Config) (portfolio : List Position) (now : ℚ)
    (fetchEnv : String → Except Unit (Option (List IndicatorRow)))
    (st : EntryState) (t : String) (rs : List String)
    (hopen : t ∉ openTickers portfolio)
    (hsig : (scan_indicators (fetchEnv t)).2 = some rs)
    (hne : ¬ rs.length = 0) :
    ((entryStep cfg portfolio now fetchEnv st t).buys ≠ st.buys ↔
      (0 < sizedShares cfg (latestClose (scan_indicators (fetchEnv t)).1) ∧
        latestClose (scan_indicators (fetchEnv t)).1 *
          ((sizedShares cfg (latestClose (scan_indicators (fetchEnv t)).1)) : ℚ)
          ≤ st.balance)) ∧
    (∀ p ∈ (entryStep cfg portfolio now fetchEnv st t).buys,
      p ∈ st.buys ∨
        (p.shares = sizedShares cfg p.price ∧ 0 < p.shares ∧
          p.price * (p.shares : ℚ) ≤ st.balance)) ∧
    allocation ⟨10000, 5/100⟩ = 500 ∧
    sizedShares ⟨10000, 5/100⟩ 25 = 20 ∧
    ¬ (0 < sizedShares ⟨10000, 5/100⟩ 25 ∧
        (25 : ℚ) * ((sizedShares ⟨10000, 5/100⟩ 25) : ℚ) ≤ 400) := by
  have hstep : entryStep cfg portfolio now fetchEnv st t =
      (if 0 < sizedShares cfg (latestClose (scan_indicators (fetchEnv t)).1) ∧
          latestClose (scan_indicators (fetchEnv t)).1 *
            ((sizedShares cfg (latestClose (scan_indicators (fetchEnv t)).1)) : ℚ)
            ≤ st.balance then
        ⟨st.balance - latestClose (scan_indicators (fetchEnv t)).1 *
            ((sizedShares cfg (latestClose (scan_indicators (fetchEnv t)).1)) : ℚ),
         log_buy st.buys t (latestClose (scan_indicators (fetchEnv t)).1) now
           (String.intercalate ", " rs)
           (sizedShares cfg (latestClose (scan_indicators (fetchEnv t)).1)),
         st.evaluated ++ [t]⟩
      else ⟨st.balance, st.buys, st.evaluated ++ [t]⟩) := by
    simp only [entryStep, if_neg hopen, hsig, if_neg hne]
  refine ⟨?_, ?_, ?_, ?_, ?_⟩
  · rw [hstep]
    split_ifs with hacc
    · simp only [log_buy]
      constructor
      · exact fun _ => hacc
      · exact fun _ => by simp
    · simp [hacc]
  · rw [hstep]
    split_ifs with hacc
    · intro p hp
      simp only [log_buy] at hp
      rcases List.mem_append.mp hp with hp | hp
      · exact Or.inl hp
      · right
        rcases List.mem_singleton.mp hp with rfl
        exact ⟨rfl, hacc.1, hacc.2⟩
    · intro p hp
      exact Or.inl hp
  · norm_num [allocation]
  · norm_num [sizedShares, allocation]
  · norm_num [sizedShares, allocation]

/-- C5 witness: at starting cash 10000, fraction 5/100, with the rowGood
signal at price 100 and a full balance of 10000, a buy is appended. -/
theorem position_sizing_witness :
    (entryStep ⟨10000, 5/100⟩ [] 0 envGood ⟨10000, [], []⟩ "AAA").buys
      ≠ ([] : List Position) :=
  ((position_sizing ⟨10000, 5/100⟩ [] 0 envGood ⟨10000, [], []⟩ "AAA"
      canonicalReasons (by decide) (by decide) (by decide)).1).mpr
    (by
      simp only [show latestClose (scan_indicators (envGood "AAA")).1 = 100 from
        by decide]
      norm_num [sizedShares, allocation])

/-- C3: the exit decision is the first matching rule of the if/elif chain,
in the fixed order take-profit, stop-loss, max-hold, trend-reversal (the
latter only when the macd column is present), later rules not being
consulted once an earlier one matches, and retention when none match; in
particular take-profit and stop-loss win over max-hold and trend-reversal,
and max-hold wins over trend-reversal. -/
theorem exit_priority (maxHoldDays : ℕ) (now buyPrice entryDate latest : ℚ)
    (df : ExitDf) :
    (latest ≥ buyPrice * (11/10) →
      exitReason maxHoldDays now buyPrice entryDate latest df
        = some "Take Profit 10%") ∧
    (¬ latest ≥ buyPrice * (11/10) → latest ≤ buyPrice * (93/100) →
      exitReason maxHoldDays now buyPrice entryDate latest df
        = some "Stop Loss 7%") ∧
    (¬ latest ≥ buyPrice * (11/10) → ¬ latest ≤ buyPrice * (93/100) →
      now - entryDate > (maxHoldDays : ℚ) →
      exitReason maxHoldDays now buyPrice entryDate latest df
        = some (maxHoldMsg maxHoldDays)) ∧
    (¬ latest ≥ buyPrice * (11/10) → ¬ latest ≤ buyPrice * (93/100) →
      ¬ now - entryDate > (maxHoldDays : ℚ) →
      ("macd" ∈ df.cols ∧ df.macdLatest < df.macdSignalLatest) →
      exitReason maxHoldDays now buyPrice entryDate latest df
        = some "MACD cross down") ∧
    (¬ latest ≥ buyPrice * (11/10) → ¬ latest ≤ buyPrice * (93/100) →
      ¬ now - entryDate > (maxHoldDays : ℚ) →
      ¬ ("macd" ∈ df.cols ∧ df.macdLatest < df.macdSignalLatest) →
      exitReason maxHoldDays now buyPrice entryDate latest df = none) := by
  unfold exitReason
  refine ⟨?_, ?_, ?_, ?_, ?_⟩ <;> intros <;> split_ifs <;> rfl

/-- C3 witness: a position 20 days old with no profit or loss trigger and
no macd column exits on the max-hold rule. -/
theorem exit_priority_witness :
    exitReason 14 20 100 0 100 ⟨[100], ohlcvCols, 0, 0⟩
      = some (maxHoldMsg 14) :=
  (exit_priority 14 20 100 0 100 ⟨[100], ohlcvCols, 0, 0⟩).2.2.1
    (by norm_num) (by norm_num) (by norm_num)

/-- C1 (code bug): a portfolio holding one open position whose fresh price
series is unavailable (download returns None) or empty ends the exit pass
with the position in neither to_keep nor exits: the rewritten buys.csv
drops it silently and no ExitRecord is ever produced for it, instead of
the position being carried forward unchanged. -/
theorem exit_skip_drops_position :
    exitPhase 14 0 (fun _ => none) [⟨"AAPL", 100, 0, "r", 5⟩]
        = ⟨[], []⟩ ∧
    exitPhase 14 0 (fun _ => some ⟨[], ohlcvCols, 0, 0⟩)
        [⟨"AAPL", 100, 0, "r", 5⟩] = ⟨[], []⟩ :=
  ⟨rfl, rfl⟩

theorem exitReason_cases (maxHoldDays : ℕ) (now buyPrice entryDate latest : ℚ)
    (df : ExitDf) (r : String)
    (h : exitReason maxHoldDays now buyPrice entryDate latest df = some r) :
    r = "Take Profit 10%" ∨ r = "Stop Loss 7%" ∨ r = maxHoldMsg maxHoldDays ∨
      (r = "MACD cross down" ∧ "macd" ∈ df.cols) := by
  unfold exitReason at h
  split_ifs at h with h1 h2 h3 h4
  · exact Or.inl (Option.some_injective _ h).symm
  · exact Or.inr (Or.inl (Option.some_injective _ h).symm)
  · exact Or.inr (Or.inr (Or.inl (Option.some_injective _ h).symm))
  · exact Or.inr (Or.inr (Or.inr ⟨(Option.some_injective _ h).symm, h4.1⟩))

theorem maxHoldMsg_ne_macd (n : ℕ) : maxHoldMsg n ≠ "MACD cross down" := by
  intro hc
  have hdata : (("Max Hold ".data ++ (toString n).data) ++ (" days").data)
      = ("MACD cross down").data := by
    rw [← String.data_append, ← String.data_append]
    exact congrArg String.data hc
  have h1 : (("Max Hold ".data ++ (toString n).data) ++ (" days").data).take 2
      = ("Max Hold ".data ++ (toString n).data).take 2 := by
    apply List.take_append_of_le_length
    rw [List.length_append]
    have h9 : ("Max Hold ".data).length = 9 := by decide
    omega
  have h2 : ("Max Hold ".data ++ (toString n).data).take 2
      = ("Max Hold ".data).take 2 :=
    List.take_append_of_le_length (by decide)
  have h3 := congrArg (List.take 2) hdata
  rw [h1, h2] at h3
  exact absurd h3 (by decide)

theorem exits_of_foldl (maxHoldDays : ℕ) (now : ℚ)
    (fetch : String → Option ExitDf) :
    ∀ (P : List Position) (acc : ExitOutcome) (r : ExitRecord),
      r ∈ (P.foldl (exitStep maxHoldDays now fetch) acc).exits →
      r ∈ acc.exits ∨
        ∃ (p : Position) (df : ExitDf) (latest : ℚ),
          fetch p.ticker = some df ∧
          df.closes.getLast? = some latest ∧
          exitReason maxHoldDays now p.price p.entry latest df = some r.reason := by
  intro P
  induction P with
  | nil => intro acc r hr; exact Or.inl hr
  | cons q Q ih =>
      intro acc r hr
      rcases ih (exitStep maxHoldDays now fetch acc q) r hr with hr | hr
      · unfold exitStep at hr
        rcases hfq : fetch q.ticker with _ | df
        · simp only [hfq] at hr
          exact Or.inl hr
        · simp only [hfq] at hr
          rcases hlq : df.closes.getLast? with _ | latest
          · simp only [hlq] at hr
            exact Or.inl hr
          · simp only [hlq] at hr
            rcases hrq : exitReason maxHoldDays now q.price q.entry latest df
                with _ | s
            · simp only [hrq] at hr
              exact Or.inl hr
            · simp only [hrq, log_exit, List.mem_append,
                List.mem_singleton] at hr
              rcases hr with hr | hr
              · exact Or.inl hr
              · refine Or.inr ⟨q, df, latest, hfq, hlq, ?_⟩
                subst hr
                rw [hrq]
      · exact Or.inr hr

/-- C10: when the exit phase reads its dataframes from the fresh OHLCV
download, no produced ExitRecord carries the reason "MACD cross down";
every one carries take-profit, stop-loss, or max-hold, because the column
guard on "macd" always fails on the OHLCV column set. -/
theorem exit_no_macd_reason (quotes : String → Option (List ℚ))
    (maxHoldDays : ℕ) (now : ℚ) (P : List Position) (r : ExitRecord)
    (hr : r ∈ (exitPhase maxHoldDays now (downloadFresh quotes) P).exits) :
    r.reason ≠ "MACD cross down" ∧
      (r.reason = "Take Profit 10%" ∨ r.reason = "Stop Loss 7%" ∨
        r.reason = maxHoldMsg maxHoldDays) := by
  unfold exitPhase at hr
  rcases exits_of_foldl maxHoldDays now (downloadFresh quotes) P ⟨[], []⟩ r hr
      with h | ⟨p, df, latest, hfp, hlp, hrp⟩
  · simp at h
  · have hcols : df.cols = ohlcvCols := by
      unfold downloadFresh at hfp
      rcases hq : quotes p.ticker with _ | closes
      · rw [hq] at hfp
        exact absurd hfp (by simp)
      · rw [hq] at hfp
        have hdf : (⟨closes, ohlcvCols, 0, 0⟩ : ExitDf) = df := by
          simpa using hfp
        rw [← hdf]
    rcases exitReason_cases maxHoldDays now p.price p.entry latest df r.reason hrp
        with h | h | h | ⟨h, hmem⟩
    · exact ⟨by rw [h]; decide, Or.inl h⟩
    · exact ⟨by rw [h]; decide, Or.inr (Or.inl h)⟩
    · exact ⟨by rw [h]; exact maxHoldMsg_ne_macd maxHoldDays, Or.inr (Or.inr h)⟩
    · rw [hcols] at hmem
      exact absurd hmem (by decide)

/-- C10 witness: a take-profit exit produced from the OHLCV download does
not carry the MACD reason. -/
theorem exit_no_macd_reason_witness :
    (⟨"AAA", 111, 0, "Take Profit 10%"⟩ : ExitRecord).reason
      ≠ "MACD cross down" :=
  (exit_no_macd_reason (fun _ => some [111]) 14 0 [⟨"AAA", 100, 0, "r", 5⟩]
    ⟨"AAA", 111, 0, "Take Profit 10%"⟩
    (by
      have hev : (exitPhase 14 0 (downloadFresh fun _ => some [111])
          [⟨"AAA", 100, 0, "r", 5⟩]).exits
          = [⟨"AAA", 111, 0, "Take Profit 10%"⟩] := by
        norm_num [exitPhase, exitStep, downloadFresh, exitReason, log_exit]
      rw [hev]
      exact List.mem_singleton.mpr rfl)).1

theorem portfolioCost_append (a b : List Position) :
    portfolioCost (a ++ b) = portfolioCost a + portfolioCost b := by
  simp [portfolioCost]

theorem entryStep_shape (cfg : Config) (portfolio : List Position) (now : ℚ)
    (fetchEnv : String → Except Unit (Option (List IndicatorRow)))
    (st : EntryState) (t : String) :
    ∃ bs : List Position,
      (entryStep cfg portfolio now fetchEnv st t).buys = st.buys ++ bs ∧
      (entryStep cfg portfolio now fetchEnv st t).balance
        = st.balance - portfolioCost bs ∧
      (0 ≤ st.balance →
        0 ≤ (entryStep cfg portfolio now fetchEnv st t).balance) ∧
      (bs = [] ∨ ∃ x : Position, bs = [x] ∧ x.ticker = t ∧
        t ∉ openTickers portfolio) ∧
      ((entryStep cfg portfolio now fetchEnv st t).evaluated
        = st.evaluated ++ if t ∈ openTickers portfolio then [] else [t]) := by
  by_cases hmem : t ∈ openTickers portfolio
  · simp only [entryStep, if_pos hmem]
    exact ⟨[], by simp, by simp [portfolioCost], fun h => h, Or.inl rfl,
      by simp [hmem]⟩
  · rcases hres : (scan_indicators (fetchEnv t)).2 with _ | rs
    · simp only [entryStep, if_neg hmem, hres]
      exact ⟨[], by simp, by simp [portfolioCost], fun h => h, Or.inl rfl,
        by simp [hmem]⟩
    · simp only [entryStep, if_neg hmem, hres]
      split_ifs with hlen hacc
      · exact ⟨[], by simp, by simp [portfolioCost], fun h => h, Or.inl rfl,
          by simp [hmem]⟩
      · refine ⟨[⟨t, latestClose (scan_indicators (fetchEnv t)).1, now,
          String.intercalate ", " rs,
          sizedShares cfg (latestClose (scan_indicators (fetchEnv t)).1)⟩],
          by simp [log_buy], by simp [portfolioCost], fun _ => ?_,
          Or.inr ⟨_, rfl, rfl, hmem⟩, by simp [hmem]⟩
        exact sub_nonneg.mpr hacc.2
      · exact ⟨[], by simp, by simp [portfolioCost], fun h => h, Or.inl rfl,
          by simp [hmem]⟩

theorem entryPhase_foldl_shape (cfg : Config) (portfolio : List Position)
    (now : ℚ) (fetchEnv : String → Except Unit (Option (List IndicatorRow))) :
    ∀ (ts : List String) (st : EntryState),
      ∃ bs : List Position,
        (ts.foldl (entryStep cfg portfolio now fetchEnv) st).buys
          = st.buys ++ bs ∧
        (ts.foldl (entryStep cfg portfolio now fetchEnv) st).balance
          = st.balance - portfolioCost bs ∧
        (0 ≤ st.balance →
          0 ≤ (ts.foldl (entryStep cfg portfolio now fetchEnv) st).balance) ∧
        ((ts.foldl (entryStep cfg portfolio now fetchEnv) st).evaluated
          = st.evaluated
            ++ ts.filter (fun t => decide (t ∉ openTickers portfolio))) ∧
        List.Sublist (bs.map Position.ticker)
          (ts.filter (fun t => decide (t ∉ openTickers portfolio))) := by
  intro ts
  induction ts with
  | nil =>
      intro st
      exact ⟨[], by simp, by simp [portfolioCost], fun h => h, by simp,
        List.Sublist.refl _⟩
  | cons t ts ih =>
      intro st
      obtain ⟨b1, hb1, hbal1, hnn1, hone1, hev1⟩ :=
        entryStep_shape cfg portfolio now fetchEnv st t
      obtain ⟨bs, hbs, hbal, hnn, hev, hsub⟩ :=
        ih (entryStep cfg portfolio now fetchEnv st t)
      have hfilter : List.Sublist
          (ts.filter (fun t => decide (t ∉ openTickers portfolio)))
          ((t :: ts).filter (fun t => decide (t ∉ openTickers portfolio))) := by
        rw [List.filter_cons]
        split_ifs
        · exact List.sublist_cons_self _ _
        · exact List.Sublist.refl _
      refine ⟨b1 ++ bs, ?_, ?_, fun h => hnn (hnn1 h), ?_, ?_⟩
      · show (ts.foldl (entryStep cfg portfolio now fetchEnv)
            (entryStep cfg portfolio now fetchEnv st t)).buys
          = st.buys ++ (b1 ++ bs)
        rw [hbs, hb1, List.append_assoc]
      · show (ts.foldl (entryStep cfg portfolio now fetchEnv)
            (entryStep cfg portfolio now fetchEnv st t)).balance
          = st.balance - portfolioCost (b1 ++ bs)
        rw [hbal, hbal1, portfolioCost_append]
        ring
      · show (ts.foldl (entryStep cfg portfolio now fetchEnv)
            (entryStep cfg portfolio now fetchEnv st t)).evaluated
          = st.evaluated
            ++ (t :: ts).filter (fun t => decide (t ∉ openTickers portfolio))
        rw [hev, hev1, List.filter_cons]
        by_cases hm : t ∈ openTickers portfolio
        · simp [hm]
        · simp [hm]
      · show List.Sublist ((b1 ++ bs).map Position.ticker)
          ((t :: ts).filter (fun t => decide (t ∉ openTickers portfolio)))
        rcases hone1 with rfl | ⟨x, rfl, hxt, hm⟩
        · simpa using hsub.trans hfilter
        · rw [List.filter_cons]
          rw [if_pos (by simpa using hm)]
          simpa [hxt] using hsub.cons₂ t

/-- C6: throughout the entry scan pass, the running balance satisfies
balance = startingCash - cost of the loaded portfolio - cost of the buys
made so far, it stays nonnegative when it starts nonnegative (the
affordability guard protects every debit), and each accepted buy debits
the state that every later ticker of the same pass then sees, the pass
over tickers ++ more being the pass over more started from the state the
pass over tickers left. -/
theorem balance_accounting (cfg : Config) (portfolio : List Position)
    (now : ℚ) (fetchEnv : String → Except Unit (Option (List IndicatorRow)))
    (tickers : List String) :
    (entryPhase cfg portfolio now fetchEnv tickers).balance
      = cfg.startingCash - portfolioCost portfolio
        - portfolioCost (entryPhase cfg portfolio now fetchEnv tickers).buys ∧
    (0 ≤ cfg.startingCash - portfolioCost portfolio →
      0 ≤ (entryPhase cfg portfolio now fetchEnv tickers).balance) ∧
    ∀ more : List String,
      entryPhase cfg portfolio now fetchEnv (tickers ++ more)
        = more.foldl (entryStep cfg portfolio now fetchEnv)
            (entryPhase cfg portfolio now fetchEnv tickers) := by
  obtain ⟨bs, hbs, hbal, hnn, hev, hsub⟩ :=
    entryPhase_foldl_shape cfg portfolio now fetchEnv tickers
      ⟨cfg.startingCash - portfolioCost portfolio, [], []⟩
  refine ⟨?_, hnn, ?_⟩
  · show (tickers.foldl (entryStep cfg portfolio now fetchEnv)
        ⟨cfg.startingCash - portfolioCost portfolio, [], []⟩).balance = _
    rw [hbal]
    unfold entryPhase
    rw [hbs]
    simp
  · intro more
    unfold entryPhase
    rw [List.foldl_append]

/-- C6 witness: starting from an empty portfolio with cash 10000, the
balance after a one-ticker pass that buys is still nonnegative. -/
theorem balance_accounting_witness :
    0 ≤ (entryPhase ⟨10000, 5/100⟩ [] 0 envGood ["AAA"]).balance :=
  (balance_accounting ⟨10000, 5/100⟩ [] 0 envGood ["AAA"]).2.1
    (by norm_num [portfolioCost])

/-- C7: the entry pass hands to scan_indicators exactly the tickers that
have no open position (an open ticker is skipped before the pipeline runs,
and the same check runs against whatever portfolio a later scan loads, so
it holds until the position is closed); and when the universe is
duplicate-free and the loaded portfolio has one row per ticker, the open
tickers together with the tickers of the new buys are still
duplicate-free: at most one open position per ticker is ever created. -/
theorem ticker_uniqueness (cfg : Config) (portfolio : List Position)
    (now : ℚ) (fetchEnv : String → Except Unit (Option (List IndicatorRow)))
    (tickers : List String) :
    ((entryPhase cfg portfolio now fetchEnv tickers).evaluated
      = tickers.filter (fun t => decide (t ∉ openTickers portfolio))) ∧
    (∀ t ∈ openTickers portfolio,
      t ∉ (entryPhase cfg portfolio now fetchEnv tickers).evaluated) ∧
    (tickers.Nodup → (openTickers portfolio).Nodup →
      (openTickers portfolio
        ++ (entryPhase cfg portfolio now fetchEnv tickers).buys.map
            Position.ticker).Nodup) := by
  obtain ⟨bs, hbs, hbal, hnn, hev, hsub⟩ :=
    entryPhase_foldl_shape cfg portfolio now fetchEnv tickers
      ⟨cfg.startingCash - portfolioCost portfolio, [], []⟩
  have hev' : (entryPhase cfg portfolio now fetchEnv tickers).evaluated
      = tickers.filter (fun t => decide (t ∉ openTickers portfolio)) := by
    unfold entryPhase
    rw [hev]
    simp
  have hbs' : (entryPhase cfg portfolio now fetchEnv tickers).buys = bs := by
    unfold entryPhase
    rw [hbs]
    simp
  refine ⟨hev', ?_, ?_⟩
  · intro t ht hmem
    rw [hev'] at hmem
    have := List.of_mem_filter hmem
    simp only [decide_eq_true_eq] at this
    exact this ht
  · intro hnd hpnd
    rw [hbs']
    refine hpnd.append (hsub.nodup (hnd.filter _)) ?_
    intro a ha hamem
    have hmem := hsub.subset hamem
    have := List.of_mem_filter hmem
    simp only [decide_eq_true_eq] at this
    exact this ha

/-- C7 witness: with CCC open and universe AAA, BBB, the pass leaves one
open position per ticker. -/
theorem ticker_uniqueness_witness :
    (openTickers [⟨"CCC", 100, 0, "r", 1⟩]
      ++ (entryPhase ⟨10000, 5/100⟩ [⟨"CCC", 100, 0, "r", 1⟩] 0 envGood
          ["AAA", "BBB"]).buys.map Position.ticker).Nodup :=
  (ticker_uniqueness ⟨10000, 5/100⟩ [⟨"CCC", 100, 0, "r", 1⟩] 0 envGood
    ["AAA", "BBB"]).2.2 (by decide) (by decide)

/-- A position the exit loop evaluates and retains: its fresh series is
available and nonempty and no exit rule matches. -/
def keepsPosition (maxHoldDays : ℕ) (now : ℚ) (fetch : String → Option ExitDf)
    (p : Position) : Prop :=
  ∃ df latest, fetch p.ticker = some df ∧ df.closes.getLast? = some latest ∧
    exitReason maxHoldDays now p.price p.entry latest df = none

theorem exitStep_of_keeps (maxHoldDays : ℕ) (now : ℚ)
    (fetch : String → Option ExitDf) (acc : ExitOutcome) (p : Position)
    (h : keepsPosition maxHoldDays now fetch p) :
    exitStep maxHoldDays now fetch acc p = ⟨acc.to_keep ++ [p], acc.exits⟩ := by
  obtain ⟨df, latest, h1, h2, h3⟩ := h
  unfold exitStep
  simp only [h1, h2, h3]

theorem kept_all_keep (maxHoldDays : ℕ) (now : ℚ)
    (fetch : String → Option ExitDf) :
    ∀ (P : List Position) (acc : ExitOutcome) (p : Position),
      p ∈ (P.foldl (exitStep maxHoldDays now fetch) acc).to_keep →
      p ∈ acc.to_keep ∨ keepsPosition maxHoldDays now fetch p := by
  intro P
  induction P with
  | nil => intro acc p hp; exact Or.inl hp
  | cons q Q ih =>
      intro acc p hp
      rcases ih (exitStep maxHoldDays now fetch acc q) p hp with hp | hp
      · unfold exitStep at hp
        rcases hfq : fetch q.ticker with _ | df
        · simp only [hfq] at hp
          exact Or.inl hp
        · simp only [hfq] at hp
          rcases hlq : df.closes.getLast? with _ | latest
          · simp only [hlq] at hp
            exact Or.inl hp
          · simp only [hlq] at hp
            rcases hrq : exitReason maxHoldDays now q.price q.entry latest df
                with _ | s
            · simp only [hrq, List.mem_append, List.mem_singleton] at hp
              rcases hp with hp | hp
              · exact Or.inl hp
              · subst hp
                exact Or.inr ⟨df, latest, hfq, hlq, hrq⟩
            · simp only [hrq] at hp
              exact Or.inl hp
      · exact Or.inr hp

theorem foldl_of_all_keeps (maxHoldDays : ℕ) (now : ℚ)
    (fetch : String → Option ExitDf) :
    ∀ (P : List Position) (acc : ExitOutcome),
      (∀ p ∈ P, keepsPosition maxHoldDays now fetch p) →
      P.foldl (exitStep maxHoldDays now fetch) acc
        = ⟨acc.to_keep ++ P, acc.exits⟩ := by
  intro P
  induction P with
  | nil => intro acc _; simp
  | cons q Q ih =>
      intro acc h
      rw [List.foldl_cons,
        exitStep_of_keeps maxHoldDays now fetch acc q
          (h q (List.mem_cons_self q Q)),
        ih _ (fun p hp => h p (List.mem_cons_of_mem q hp))]
      simp

/-- C9: exit evaluation is idempotent: the decision is a pure function of
the position, the fetched series and the clock, so re-running the exit
pass on the positions the first pass kept, with no new bars and the same
clock, retains every one of them again and produces no exit records. -/
theorem exit_evaluation_idempotent (maxHoldDays : ℕ) (now : ℚ)
    (fetch : String → Option ExitDf) (P : List Position) :
    exitPhase maxHoldDays now fetch
        (exitPhase maxHoldDays now fetch P).to_keep
      = ⟨(exitPhase maxHoldDays now fetch P).to_keep, []⟩ := by
  have hall : ∀ p ∈ (exitPhase maxHoldDays now fetch P).to_keep,
      keepsPosition maxHoldDays now fetch p := by
    intro p hp
    unfold exitPhase at hp
    rcases kept_all_keep maxHoldDays now fetch P ⟨[], []⟩ p hp with h | h
    · simp at h
    · exact h
  have h2 : exitPhase maxHoldDays now fetch
      (exitPhase maxHoldDays now fetch P).to_keep
      = ⟨[] ++ (exitPhase maxHoldDays now fetch P).to_keep, []⟩ :=
    foldl_of_all_keeps maxHoldDays now fetch
      ((exitPhase maxHoldDays now fetch P).to_keep) ⟨[], []⟩ hall
  rw [h2]
  simp

end PaperTrader
